import Mathlib

/-!
Verification of the jitter-sampler repository (src/jitter.rs, src/influx.rs,
src/main.rs, src/utils.rs) against its natural-language specification.

The Rust sources are shallowly embedded:

* `i64` values are modelled as `Int` (the runs considered stay far from the
  64-bit boundaries; `i64::MIN`, which the code uses as the sentinel for the
  running maximum, is modelled by the exact constant `i64Min`).
* The pluggable time source `time_func : fn() -> i64` is modelled as a stream
  `f : Nat → Int` giving the result of the k-th call to the function, so that
  a "non-decreasing time function" is exactly `Monotone f`.
* The mutable sampling loop of `busy_loop` becomes a step function `iter` on an
  explicit `LoopState` driven by fuel; a Rust index-out-of-bounds panic at
  `jitter[idx]` is modelled by `iter` returning `none`.
* `publish_results` becomes a pure function returning the list of batch bodies
  handed to `post_batch`, in order.
* `parse_cpu_list` works on Rust `&str`; it is embedded over `List Char`
  with helper functions mirroring `str::trim`, `str::split(char)` and
  `u32::from_str`.
-/

namespace JitterSampler

/-! ## Data model (src/utils.rs, src/jitter.rs) -/

/-- `NANOS_IN_SEC` from src/utils.rs. -/
def NANOS_IN_SEC : Int := 1000000000

/-- `i64::MIN`, the initial value of the running maximum in `busy_loop`. -/
def i64Min : Int := -(2 ^ 63)

/-- The `Jitter` struct from src/jitter.rs: a timestamp and the worst observed
latency of one reporting window. -/
structure Jitter where
  ts : Int
  latency : Int
deriving DecidableEq

/-- The fields of `ProgramArgs` (src/utils.rs) that the verified components
read.  `time_func` is passed separately as a call stream, `cpus` is consumed
by the orchestrator only, and the two boolean flags only toggle hardware
side effects outside the embedded fragment. -/
structure ProgramArgs where
  duration_seconds : Int
  report_interval_millis : Int
  local_hostname : String
  influx_url : String
  influx_db : String
deriving DecidableEq

/-- `(program_args.duration_seconds * 1000 / program_args.report_interval_millis) as usize`
from `capture_jitter` (src/jitter.rs line 22); Rust `i64` division truncates and
the cast to `usize` is modelled by `Int.toNat` (the theorems below only use
nonnegative quotients, where the two agree). -/
def sampleCount (args : ProgramArgs) : Nat :=
  (args.duration_seconds * 1000 / args.report_interval_millis).toNat

/-! ## The busy loop (src/jitter.rs, `busy_loop`) -/

/-- The mutable state of `busy_loop`: the local variables `previous`,
`next_report`, `max`, `idx`, the result vector `jitter`, and a counter of how
many `time_func` calls have been made so far (so the stream `f` can supply the
next reading). -/
structure LoopState where
  previous : Int
  nextReport : Int
  max : Int
  idx : Nat
  jitter : List Jitter
  calls : Nat
deriving DecidableEq

/-- One iteration of the `while previous < deadline` body of `busy_loop`
(src/jitter.rs lines 43-60).  Reads `now`, updates the running maximum, and on
`now > next_report` records the sample at `jitter[idx]` (returning `none` for
the Rust panic when `idx` is out of bounds), recomputes `next_report`, resets
the maximum, bumps `idx`, and re-reads `now`; finally `previous = now`. -/
def iter (intervalNs : Int) (f : Nat → Int) (s : LoopState) : Option LoopState :=
  let now := f s.calls
  let latency := now - s.previous
  let max := if latency > s.max then latency else s.max
  if now > s.nextReport then
    if s.idx < s.jitter.length then
      some { previous := f (s.calls + 1)
             nextReport := now + intervalNs
             max := i64Min
             idx := s.idx + 1
             jitter := s.jitter.set s.idx ⟨now, max⟩
             calls := s.calls + 2 }
    else none
  else
    some { s with previous := now, max := max, calls := s.calls + 1 }

/-- Outcome of running the loop with a given amount of fuel: normal exit of the
`while`, an index-out-of-bounds panic, or fuel exhaustion (the loop was still
running).  Each constructor carries the last state reached. -/
inductive LoopResult where
  | done (s : LoopState)
  | panicked (s : LoopState)
  | fuelOut (s : LoopState)
deriving DecidableEq

/-- The state carried by a `LoopResult`. -/
def LoopResult.state : LoopResult → LoopState
  | .done s => s
  | .panicked s => s
  | .fuelOut s => s

/-- Whether the run ended in an index-out-of-bounds panic. -/
def LoopResult.isPanic : LoopResult → Bool
  | .panicked _ => true
  | _ => false

/-- Whether the `while` loop exited normally. -/
def LoopResult.isDone : LoopResult → Bool
  | .done _ => true
  | _ => false

/-- The `while previous < deadline` loop of `busy_loop`, driven by fuel. -/
def busyLoopGo (intervalNs deadline : Int) (f : Nat → Int) : Nat → LoopState → LoopResult
  | 0, s => .fuelOut s
  | fuel + 1, s =>
    if s.previous < deadline then
      match iter intervalNs f s with
      | some s' => busyLoopGo intervalNs deadline f fuel s'
      | none => .panicked s
    else .done s

/-- The state of `busy_loop` just before the `while` loop: `previous` is the
first reading, `next_report = previous + report_interval_millis * 1_000_000`,
`max = i64::MIN`, `idx = 0`, and the vector is the zero-initialised allocation
`vec![Jitter { ts: 0, latency: 0 }; sample_count]` made by `capture_jitter`. -/
def initialState (args : ProgramArgs) (f : Nat → Int) : LoopState :=
  { previous := f 0
    nextReport := f 0 + args.report_interval_millis * 1000000
    max := i64Min
    idx := 0
    jitter := List.replicate (sampleCount args) ⟨0, 0⟩
    calls := 1 }

/-- `deadline = previous + duration_seconds * NANOS_IN_SEC` (src/jitter.rs line 37). -/
def loopDeadline (args : ProgramArgs) (f : Nat → Int) : Int :=
  f 0 + args.duration_seconds * NANOS_IN_SEC

/-- `busy_loop` (src/jitter.rs lines 35-61) on the vector allocated by
`capture_jitter`, run with the given fuel. -/
def busyLoop (args : ProgramArgs) (f : Nat → Int) (fuel : Nat) : LoopResult :=
  busyLoopGo (args.report_interval_millis * 1000000) (loopDeadline args f) f fuel
    (initialState args f)

/-! ## The publisher (src/influx.rs) -/

/-- `BATCH_PUBLISH_THRESHOLD_BYTES` from src/influx.rs. -/
def BATCH_PUBLISH_THRESHOLD_BYTES : Nat := 768 * 1024

/-- One serialized line:
`format!("jitter,host={},cpu={} jitter={} {}\n", hostname, cpu, latency, ts)`. -/
def record (host : String) (cpu : Nat) (j : Jitter) : String :=
  "jitter,host=" ++ host ++ ",cpu=" ++ toString cpu ++ " jitter=" ++
    toString j.latency ++ " " ++ toString j.ts ++ "\n"

/-- The loop of `publish_results`: grow `body`, flush (emit the batch and clear
the buffer) once `body.len() >= BATCH_PUBLISH_THRESHOLD_BYTES`, and after the
last sample flush the remainder unconditionally.  Rust's `body.len()` counts
bytes, modelled by `String.utf8ByteSize`. -/
def publishGo (host : String) (cpu : Nat) : String → List Jitter → List String
  | body, [] => [body]
  | body, j :: rest =>
    let body' := body ++ record host cpu j
    if BATCH_PUBLISH_THRESHOLD_BYTES ≤ body'.utf8ByteSize then
      body' :: publishGo host cpu "" rest
    else
      publishGo host cpu body' rest

/-- `publish_results` (src/influx.rs lines 5-17), returning the list of batch
bodies handed to `post_batch`, in posting order. -/
def publishResults (args : ProgramArgs) (cpu : Nat) (results : List Jitter) : List String :=
  publishGo args.local_hostname cpu "" results

/-! ## Clock configuration (src/main.rs `configure_clock`, src/utils.rs) -/

/-- The three time-source functions selectable in `configure_clock`. -/
inductive TimeSource where
  | clockRealtime
  | clockMonotonic
  | rdtsc
deriving DecidableEq

/-- The process-wide calibration state of src/utils.rs: the statics
`TSC_FREQUENCY` (an `f64`, zero-initialised; modelled as `Rat` since the
verified fragment never computes with it) and `TIME_OFFSET` (an `i64`,
zero-initialised). -/
structure ClockState where
  tscFrequency : Rat
  timeOffset : Int
deriving DecidableEq

/-- `configure_clock` (src/main.rs lines 64-88).  Inputs: the optional
`time_source` argument string, the optional parsed `tsc_frequency` argument,
and the results of the single `clock_realtime()` call and of the single
`time_func()` call that the offset computation performs (for `rdtsc`, the
latter is the counter-derived reading with the zero-initialised offset).
The Rust `panic!("Unrecognized clock type")` is modelled as `Except.error`
with the panic message. -/
def configureClock (time_source : Option String) (tsc_frequency : Option Rat)
    (realtimeRead sourceRead : Int) : Except String (TimeSource × ClockState) :=
  let freq : Rat := tsc_frequency.getD 0
  match time_source with
  | none => .ok (.clockRealtime, ⟨freq, 0⟩)
  | some s =>
    if s = "clock_realtime" then .ok (.clockRealtime, ⟨freq, 0⟩)
    else if s = "clock_monotonic" then
      .ok (.clockMonotonic, ⟨freq, realtimeRead - sourceRead⟩)
    else if s = "rdtsc" then
      .ok (.rdtsc, ⟨freq, realtimeRead - sourceRead⟩)
    else .error "Unrecognized clock type"

/-! ## The cpu-list parser (src/main.rs `parse_cpu_list`)

Embedded over `List Char`; the helpers mirror the Rust string primitives used
by the source. -/

/-- Rust `str::split(sep)` over characters: `"".split(c)` yields `[""]`, and a
trailing separator yields a trailing empty piece. -/
def splitOnChar (sep : Char) : List Char → List (List Char)
  | [] => [[]]
  | c :: cs =>
    if c = sep then [] :: splitOnChar sep cs
    else
      match splitOnChar sep cs with
      | [] => [[c]]
      | t :: ts => (c :: t) :: ts

/-- Rust `str::trim`: drop whitespace from both ends. -/
def trimChars (l : List Char) : List Char :=
  ((l.dropWhile Char.isWhitespace).reverse.dropWhile Char.isWhitespace).reverse

/-- The digit-accumulation loop of `u32::from_str`: every character must be a
decimal digit and every intermediate accumulator must fit in a `u32`. -/
def parseU32Go : List Char → Nat → Option Nat
  | [], acc => some acc
  | c :: cs, acc =>
    if c.isDigit then
      let acc' := acc * 10 + (c.toNat - 48)
      if acc' < 4294967296 then parseU32Go cs acc' else none
    else none

/-- Rust `str::parse::<u32>()`: an optional leading `+`, then a nonempty digit
string whose value fits in a `u32`. -/
def parseU32 (l : List Char) : Option Nat :=
  let l' := if l.head? = some '+' then l.tail else l
  match l' with
  | [] => none
  | _ => parseU32Go l' 0

/-- One iteration of the `for element in elements` loop of `parse_cpu_list`
(src/main.rs lines 186-197): a token containing `-` is split on `-` and parsed
as an inclusive range pushed as `begin..end + 1`; otherwise the token is parsed
as a single cpu.  A Rust `.expect` panic becomes `none`.  The successor
`end + 1` is a `u32` addition in the source, so it is taken modulo `2^32`
here: at `end = 4294967295` a release build wraps to `begin..0` (an empty
range) — a debug build would panic instead, so the theorems below confine
themselves to `end + 1 < 2^32`, where the wrap, the panic and plain `Nat`
arithmetic all coincide. -/
def parseCpuToken (element : List Char) : Option (List Nat) :=
  if element.contains '-' then
    let range := splitOnChar '-' element
    match parseU32 (range.getD 0 []), parseU32 (range.getD 1 []) with
    | some b, some e => some (List.range' b ((e + 1) % 4294967296 - b))
    | _, _ => none
  else
    (parseU32 element).map (fun c => [c])

/-- The token loop of `parse_cpu_list`: the expansions of the tokens are pushed
into `result` in input order. -/
def parseCpuTokens : List (List Char) → Option (List Nat)
  | [] => some []
  | e :: rest =>
    match parseCpuToken e, parseCpuTokens rest with
    | some xs, some ys => some (xs ++ ys)
    | _, _ => none

/-- `parse_cpu_list` (src/main.rs lines 183-200). -/
def parseCpuList (s : List Char) : Option (List Nat) :=
  parseCpuTokens (splitOnChar ',' (trimChars s))

/-! ## Concrete configurations and scripted clocks used in the theorems -/

/-- A valid configuration: 1 second run, 500 ms reporting interval, so the
report interval evenly divides the run duration and `sampleCount = 2`. -/
def cfg1 : ProgramArgs := ⟨1, 500, "h", "http://x", "db"⟩

/-- A non-decreasing scripted clock: first reading 0, every later reading
2·10⁹ ns (the clock jumps over the whole run at once). -/
def clock1 : Nat → Int := fun n => if n = 0 then 0 else 2000000000

/-- A configuration where the report interval (700 ms) does not evenly divide
the run duration (1 s): `sampleCount = 1000 / 700 = 1`. -/
def cfg2 : ProgramArgs := ⟨1, 700, "h", "http://x", "db"⟩

/-- A non-decreasing scripted clock: 0, then 700 000 001 (twice), then 2·10⁹. -/
def clock2 : Nat → Int := fun n =>
  if n = 0 then 0 else if n ≤ 2 then 700000001 else 2000000000

/-- `clock1` is non-decreasing. -/
theorem clock1_monotone : Monotone clock1 := by
  intro i j hij
  unfold clock1
  by_cases hi : i = 0
  · by_cases hj : j = 0 <;> simp [hi, hj]
  · have hj : j ≠ 0 := by omega
    simp [hi, hj]

/-- `clock2` is non-decreasing. -/
theorem clock2_monotone : Monotone clock2 := by
  intro i j hij
  unfold clock2
  by_cases hi : i = 0
  · by_cases hj : j = 0
    · simp [hi, hj]
    · by_cases hj2 : j ≤ 2 <;> simp [hi, hj, hj2]
  · have hj : j ≠ 0 := by omega
    by_cases hi2 : i ≤ 2
    · by_cases hj2 : j ≤ 2 <;> simp [hi, hj, hi2, hj2]
    · have hj2 : ¬ j ≤ 2 := by omega
      simp [hi, hj, hi2, hj2]

/-! ## Generic facts about the loop runner -/

/-- A predicate preserved by every loop iteration holds of the state carried by
the run's result, whichever way the run ends. -/
theorem busyLoopGo_inv (I D : Int) (f : Nat → Int) (P : LoopState → Prop)
    (hstep : ∀ s s', P s → s.previous < D → iter I f s = some s' → P s') :
    ∀ fuel s, P s → P (busyLoopGo I D f fuel s).state
  | 0, _, hP => hP
  | fuel + 1, s, hP => by
    unfold busyLoopGo
    by_cases h : s.previous < D
    · rw [if_pos h]
      cases heq : iter I f s with
      | some s' =>
        exact busyLoopGo_inv I D f P hstep fuel s' (hstep s s' hP h heq)
      | none => exact hP
    · rw [if_neg h]; exact hP

/-- If from every reachable good state the iteration succeeds into a good
state, the run never panics. -/
theorem busyLoopGo_no_panic (I D : Int) (f : Nat → Int) (P : LoopState → Prop)
    (hstep : ∀ s, P s → s.previous < D → ∃ s', iter I f s = some s' ∧ P s') :
    ∀ fuel s, P s → (busyLoopGo I D f fuel s).isPanic = false
  | 0, _, _ => rfl
  | fuel + 1, s, hP => by
    unfold busyLoopGo
    by_cases h : s.previous < D
    · rw [if_pos h]
      obtain ⟨s', heq, hP'⟩ := hstep s hP h
      rw [heq]
      exact busyLoopGo_no_panic I D f P hstep fuel s' hP'
    · rw [if_neg h]; rfl

/-- A normal exit happens exactly when `previous` has reached the deadline:
the loop performs no further iteration (and records nothing) from then on. -/
theorem busyLoopGo_done (I D : Int) (f : Nat → Int) :
    ∀ fuel s s', busyLoopGo I D f fuel s = .done s' → D ≤ s'.previous
  | 0, s, s', h => by simp [busyLoopGo] at h
  | fuel + 1, s, s', h => by
    unfold busyLoopGo at h
    by_cases hc : s.previous < D
    · rw [if_pos hc] at h
      cases heq : iter I f s with
      | some s2 =>
        rw [heq] at h
        exact busyLoopGo_done I D f fuel s2 s' h
      | none => rw [heq] at h; exact absurd h (by simp)
    · rw [if_neg hc] at h
      cases h
      omega

/-! ## Publisher lemmas -/

theorem stringJoin_cons (s : String) (l : List String) :
    String.join (s :: l) = s ++ String.join l := by
  have key : ∀ (l : List String) (a : String), l.foldl (· ++ ·) a = a ++ String.join l := by
    intro l
    induction l with
    | nil => intro a; simp [String.join]
    | cons x xs ih =>
      intro a
      have h1 : (x :: xs).foldl (· ++ ·) a = xs.foldl (· ++ ·) (a ++ x) := rfl
      rw [h1, ih (a ++ x)]
      have h2 : String.join (x :: xs) = (x :: xs).foldl (· ++ ·) "" := rfl
      rw [h2]
      have h3 : ((x :: xs)).foldl (· ++ ·) "" = xs.foldl (· ++ ·) ("" ++ x) := rfl
      rw [h3, ih ("" ++ x)]
      simp [String.append_assoc]
  exact key l s

theorem publishGo_ne_nil (host : String) (cpu : Nat) :
    ∀ results body, publishGo host cpu body results ≠ []
  | [], body => by simp [publishGo]
  | j :: rest, body => by
    unfold publishGo
    dsimp only
    split
    · simp
    · exact publishGo_ne_nil host cpu rest _

theorem publishGo_join (host : String) (cpu : Nat) :
    ∀ results body, String.join (publishGo host cpu body results) =
      body ++ String.join (results.map (record host cpu))
  | [], body => by simp [publishGo, String.join]
  | j :: rest, body => by
    unfold publishGo
    dsimp only
    split
    · rw [stringJoin_cons, publishGo_join host cpu rest ""]
      simp [stringJoin_cons, String.append_assoc]
    · rw [publishGo_join host cpu rest _]
      simp [stringJoin_cons, String.append_assoc]

theorem publishGo_dropLast_big (host : String) (cpu : Nat) :
    ∀ results body, ∀ b ∈ (publishGo host cpu body results).dropLast,
      BATCH_PUBLISH_THRESHOLD_BYTES ≤ b.utf8ByteSize
  | [], body => by simp [publishGo]
  | j :: rest, body => by
    unfold publishGo
    dsimp only
    split
    · rename_i hbig
      rw [List.dropLast_cons_of_ne_nil (publishGo_ne_nil host cpu rest "")]
      intro b hb
      rcases List.mem_cons.mp hb with h | h
      · exact h ▸ hbig
      · exact publishGo_dropLast_big host cpu rest "" b h
    · exact publishGo_dropLast_big host cpu rest _

end JitterSampler

namespace JitterSampler

/-! ## Claim C8: publisher serialization and batching -/

/-- C8: `publish_results` serializes each sample into exactly one record
`jitter,host=<host>,cpu=<core_id> jitter=<worst_latency> <timestamp>\n`
(the definition of `record`), concatenates records into a buffer, flushes to
the sink whenever the buffer's byte length reaches 768 KiB (clearing it), and
always issues one final unconditional flush — so a zero-sample input issues
exactly one empty flush.  Stated as: the empty input yields exactly the batch
list `[""]`; the concatenation of all flushed batches is the concatenation of
the per-sample records in order; at least one batch is always flushed; and
every batch except the last has byte length at least the threshold. -/
theorem publish_results_batching (args : ProgramArgs) (cpu : Nat) :
    publishResults args cpu [] = [""] ∧
    ∀ results : List Jitter,
      String.join (publishResults args cpu results) =
        String.join (results.map (record args.local_hostname cpu)) ∧
      1 ≤ (publishResults args cpu results).length ∧
      ∀ b ∈ (publishResults args cpu results).dropLast,
        BATCH_PUBLISH_THRESHOLD_BYTES ≤ b.utf8ByteSize := by
  refine ⟨rfl, fun results => ⟨?_, ?_, ?_⟩⟩
  · have h := publishGo_join args.local_hostname cpu results ""
    unfold publishResults
    rw [h]
    simp
  · have h := publishGo_ne_nil args.local_hostname cpu results ""
    unfold publishResults
    cases hl : publishGo args.local_hostname cpu "" results with
    | nil => exact absurd hl h
    | cons a l => simp
  · exact publishGo_dropLast_big args.local_hostname cpu results ""

/-! ## Claim C1: published sample count, and sentinel entries -/

/-- The length of the result vector never changes during the run. -/
theorem busyLoop_jitter_length (args : ProgramArgs) (f : Nat → Int) (fuel : Nat) :
    (busyLoop args f fuel).state.jitter.length = sampleCount args := by
  have h := busyLoopGo_inv (args.report_interval_millis * 1000000) (loopDeadline args f) f
    (fun s => s.jitter.length = sampleCount args) ?_ fuel (initialState args f) ?_
  · exact h
  · intro s s' hP _ heq
    unfold iter at heq
    dsimp only at heq
    split at heq
    · split at heq
      · cases heq
        simpa using hP
      · cases heq
    · cases heq
      simpa using hP
  · simp [initialState]

/-- C1 (amended): for a fully-run pipeline, `publish_results` is handed the
whole pre-allocated result vector of length
`duration_seconds * 1000 / report_interval_millis` and serializes every one of
its entries — one record per entry, in order — including entries still at the
zero-initialized sentinel (`publish_results` performs no exclusion). -/
theorem publish_serializes_all_samples (args : ProgramArgs) (f : Nat → Int)
    (fuel : Nat) (cpu : Nat) (_h : (busyLoop args f fuel).isDone = true) :
    (busyLoop args f fuel).state.jitter.length = sampleCount args ∧
    ((busyLoop args f fuel).state.jitter.map (record args.local_hostname cpu)).length =
      sampleCount args ∧
    String.join (publishResults args cpu (busyLoop args f fuel).state.jitter) =
      String.join ((busyLoop args f fuel).state.jitter.map (record args.local_hostname cpu)) := by
  refine ⟨busyLoop_jitter_length args f fuel, ?_, ?_⟩
  · rw [List.length_map]
    exact busyLoop_jitter_length args f fuel
  · exact (publish_results_batching args cpu).2 (busyLoop args f fuel).state.jitter |>.1

/-- Witness for C1's theorem: the run of `cfg1` under `clock1` completes, and
the conclusion evaluates on it. -/
theorem publish_serializes_all_samples_witness :
    (busyLoop cfg1 clock1 5).isDone = true ∧
    (busyLoop cfg1 clock1 5).state.jitter.length = sampleCount cfg1 :=
  ⟨by decide, (publish_serializes_all_samples cfg1 clock1 5 0 (by decide)).1⟩

/-- C1 as frozen is false: in the completed run of `cfg1` under the
non-decreasing clock `clock1`, the second pre-allocated slot is never written
(it stays at the sentinel `⟨0, 0⟩`), yet `publish_results` serializes it, so a
published record carries timestamp 0 (`... jitter=0 0`). -/
theorem sentinel_published_counterexample :
    (busyLoop cfg1 clock1 5).isDone = true ∧
    (busyLoop cfg1 clock1 5).state.jitter = [⟨2000000000, 2000000000⟩, ⟨0, 0⟩] ∧
    publishResults cfg1 0 (busyLoop cfg1 clock1 5).state.jitter =
      ["jitter,host=h,cpu=0 jitter=2000000000 2000000000\njitter,host=h,cpu=0 jitter=0 0\n"] := by
  refine ⟨by decide, by decide, by decide⟩

/-! ## Claim C3: how the window boundary advances -/

/-- C3 (amended): when a sample is emitted, `next_report` is recomputed from
the current time reading as `now + report_interval_millis * 1_000_000`; since
emission requires `now > next_report`, the new boundary is strictly greater
than the previous boundary plus one interval (it is not advanced by exactly
one interval). -/
theorem next_report_advance (intervalNs : Int) (f : Nat → Int) (s : LoopState)
    (hemit : f s.calls > s.nextReport) (hidx : s.idx < s.jitter.length) :
    (iter intervalNs f s).map LoopState.nextReport = some (f s.calls + intervalNs) ∧
    s.nextReport + intervalNs < f s.calls + intervalNs := by
  constructor
  · unfold iter
    dsimp only
    rw [if_pos hemit, if_pos hidx]
    rfl
  · omega

/-- Witness for C3's theorem at a concrete emitting state. -/
theorem next_report_advance_witness :
    ((11 : Int) > 10 ∧ (0 : Nat) < 1) ∧
    (iter 100 (fun _ => 11) ⟨0, 10, i64Min, 0, [⟨0, 0⟩], 0⟩).map LoopState.nextReport =
      some 111 ∧ (10 : Int) + 100 < 11 + 100 :=
  ⟨⟨by decide, by decide⟩,
    next_report_advance 100 (fun _ => 11) ⟨0, 10, i64Min, 0, [⟨0, 0⟩], 0⟩
      (by decide) (by decide)⟩

/-- C3 as frozen is false: in the run of `cfg1` under `clock1`, one sample is
emitted; the claim predicts the boundary advances from
`f 0 + 500_000_000 = 500_000_000` to `1_000_000_000`, but the loop recomputes
it from the current reading, leaving `next_report = 2_500_000_000`. -/
theorem next_report_recomputed_counterexample :
    (busyLoop cfg1 clock1 5).state.idx = 1 ∧
    (busyLoop cfg1 clock1 5).state.nextReport = 2500000000 ∧
    (initialState cfg1 clock1).nextReport + cfg1.report_interval_millis * 1000000 =
      1000000000 ∧
    (2500000000 : Int) ≠ 1000000000 := by
  refine ⟨by decide, by decide, by decide, by decide⟩

end JitterSampler

namespace JitterSampler

/-! ## Claim C2: loop termination at the deadline and index bounds -/

/-- Invariant of the sampling loop that bounds the write index: the vector
keeps its allocated length, `idx` never exceeds `n`, `previous` never runs
ahead of the next reading, the boundary `next_report` is at least
`start + (idx + 1) * interval`, and once all `n` slots are written `previous`
has passed the deadline (so the loop exits before any further write). -/
def boundInv (f : Nat → Int) (I D start : Int) (n : Nat) (s : LoopState) : Prop :=
  s.jitter.length = n ∧ s.idx ≤ n ∧ s.previous ≤ f s.calls ∧
  start + ((s.idx : Int) + 1) * I ≤ s.nextReport ∧ (s.idx = n → D ≤ s.previous)

/-- `boundInv` is preserved by one loop iteration (which in particular cannot
panic), provided the deadline sits exactly `n` intervals after `start`. -/
theorem boundInv_step (f : Nat → Int) (hf : Monotone f) (I D start : Int) (n : Nat)
    (hD : D = start + (n : Int) * I) (s : LoopState)
    (hs : boundInv f I D start n s) (hlt : s.previous < D) :
    ∃ s', iter I f s = some s' ∧ boundInv f I D start n s' := by
  obtain ⟨hlen, hidx, hprev, hnr, hend⟩ := hs
  by_cases hemit : f s.calls > s.nextReport
  · have hidxlt : s.idx < n := by
      rcases Nat.lt_or_ge s.idx n with h | h
      · exact h
      · exact absurd (hend (le_antisymm hidx h)) (not_le.mpr hlt)
    have hinb : s.idx < s.jitter.length := by rw [hlen]; exact hidxlt
    have heq : iter I f s = some
        { previous := f (s.calls + 1)
          nextReport := f s.calls + I
          max := i64Min
          idx := s.idx + 1
          jitter := s.jitter.set s.idx
            ⟨f s.calls, if f s.calls - s.previous > s.max then f s.calls - s.previous else s.max⟩
          calls := s.calls + 2 } := by
      unfold iter
      dsimp only
      rw [if_pos hemit, if_pos hinb]
    refine ⟨_, heq, ?_, ?_, ?_, ?_, ?_⟩
    · simpa using hlen
    · simpa using hidxlt
    · dsimp only
      exact hf (by omega)
    · have hsplit : (((s.idx + 1 : Nat) : Int) + 1) * I = ((s.idx : Int) + 1) * I + I := by
        push_cast
        ring
      dsimp only
      rw [hsplit]
      have hnow : s.nextReport < f s.calls := hemit
      linarith
    · intro hn
      dsimp only at hn ⊢
      have hcast : (n : Int) = (s.idx : Int) + 1 := by
        rw [← hn]
        push_cast
        ring
      have h1 : D ≤ s.nextReport := by rw [hD, hcast]; exact hnr
      have h2 : f s.calls ≤ f (s.calls + 1) := hf (by omega)
      linarith
  · have heq : iter I f s = some
        { s with
          previous := f s.calls
          max := if f s.calls - s.previous > s.max then f s.calls - s.previous else s.max
          calls := s.calls + 1 } := by
      unfold iter
      dsimp only
      rw [if_neg hemit]
    refine ⟨_, heq, hlen, hidx, ?_, hnr, ?_⟩
    · dsimp only
      exact hf (by omega)
    · intro hn
      exact le_trans (hend hn) hprev

/-- C2 (amended): for every non-decreasing time function, **provided the
report interval evenly divides the run duration** (the spec's sizing
invariant), every write `jitter[idx]` of the loop stays within the
pre-allocated vector of length `duration_seconds * 1000 /
report_interval_millis` — the run never panics — and whenever the loop exits
normally, `previous` has crossed the deadline and nothing further is recorded
(a final partial window is discarded).  Without the divisibility hypothesis
the bound claim is refuted by `busy_loop_out_of_bounds_counterexample`. -/
theorem busy_loop_in_bounds (args : ProgramArgs) (f : Nat → Int) (fuel : Nat)
    (hd : 0 < args.duration_seconds) (hr : 0 < args.report_interval_millis)
    (hdvd : args.report_interval_millis ∣ args.duration_seconds * 1000)
    (hf : Monotone f) :
    (busyLoop args f fuel).isPanic = false ∧
    ((busyLoop args f fuel).isDone = true →
      loopDeadline args f ≤ (busyLoop args f fuel).state.previous) := by
  constructor
  · have hcast : ((sampleCount args : Nat) : Int) =
        args.duration_seconds * 1000 / args.report_interval_millis :=
      Int.toNat_of_nonneg (Int.ediv_nonneg
        (mul_nonneg (le_of_lt hd) (by norm_num)) (le_of_lt hr))
    have hcancel : args.duration_seconds * 1000 / args.report_interval_millis *
        args.report_interval_millis = args.duration_seconds * 1000 :=
      Int.ediv_mul_cancel hdvd
    have hD : loopDeadline args f =
        f 0 + (sampleCount args : Int) * (args.report_interval_millis * 1000000) := by
      unfold loopDeadline NANOS_IN_SEC
      rw [hcast]
      rw [show args.duration_seconds * 1000 / args.report_interval_millis *
            (args.report_interval_millis * 1000000) =
          args.duration_seconds * 1000 / args.report_interval_millis *
            args.report_interval_millis * 1000000 from by ring, hcancel]
      ring
    have hinit : boundInv f (args.report_interval_millis * 1000000) (loopDeadline args f)
        (f 0) (sampleCount args) (initialState args f) := by
      refine ⟨by simp [initialState], by simp [initialState], ?_, ?_, ?_⟩
      · exact hf (by omega)
      · simp [initialState]
      · intro hn
        simp only [initialState] at hn
        rw [hD, ← hn]
        simp [initialState]
    exact busyLoopGo_no_panic (args.report_interval_millis * 1000000) (loopDeadline args f) f
      (boundInv f (args.report_interval_millis * 1000000) (loopDeadline args f)
        (f 0) (sampleCount args))
      (fun s hs hlt => boundInv_step f hf _ _ _ _ hD s hs hlt)
      fuel (initialState args f) hinit
  · intro hdone
    unfold busyLoop at hdone ⊢
    cases hres : busyLoopGo (args.report_interval_millis * 1000000) (loopDeadline args f) f
        fuel (initialState args f) with
    | done s' =>
      exact busyLoopGo_done _ _ f fuel _ s' hres
    | panicked s' => rw [hres] at hdone; exact absurd hdone (by simp [LoopResult.isDone])
    | fuelOut s' => rw [hres] at hdone; exact absurd hdone (by simp [LoopResult.isDone])

/-- Witness for C2's theorem: the divisible configuration `cfg1` under the
non-decreasing `clock1` never panics. -/
theorem busy_loop_in_bounds_witness :
    ((0 : Int) < 1 ∧ (0 : Int) < 500 ∧ (500 : Int) ∣ 1 * 1000) ∧
    (busyLoop cfg1 clock1 5).isPanic = false :=
  ⟨⟨by decide, by decide, ⟨2, by decide⟩⟩,
    (busy_loop_in_bounds cfg1 clock1 5 (by decide) (by decide) ⟨2, by decide⟩
      clock1_monotone).1⟩

/-- C2 as frozen is false: under the non-decreasing clock `clock2` and the
configuration `cfg2` (700 ms does not divide the 1 s run), the loop performs a
write at `idx = 1` into the vector of length `1000 / 700 = 1` — a Rust
index-out-of-bounds panic. -/
theorem busy_loop_out_of_bounds_counterexample :
    Monotone clock2 ∧
    ¬ (cfg2.report_interval_millis ∣ cfg2.duration_seconds * 1000) ∧
    (busyLoop cfg2 clock2 10).isPanic = true ∧
    (busyLoop cfg2 clock2 10).state.idx = 1 ∧
    (busyLoop cfg2 clock2 10).state.jitter.length = 1 := by
  refine ⟨clock2_monotone, ?_, by decide, by decide, by decide⟩
  intro h
  obtain ⟨k, hk⟩ := h
  simp only [cfg2] at hk
  omega

end JitterSampler

namespace JitterSampler

/-! ## Claim C6: monotonicity of recorded timestamps -/

/-- Writing at index `i` and taking one more element appends the written value
to the previous prefix. -/
theorem take_set_succ {α : Type} (l : List α) (i : Nat) (v : α) (h : i < l.length) :
    (l.set i v).take (i + 1) = l.take i ++ [v] := by
  induction l generalizing i with
  | nil => simp at h
  | cons a l ih =>
    cases i with
    | zero => simp
    | succ n =>
      simp only [List.set_cons_succ, List.take_succ_cons, List.cons_append]
      rw [ih n (by simpa using h)]

/-- The timestamps written so far (the first `idx` entries of the vector). -/
def tsWritten (s : LoopState) : List Int := (s.jitter.take s.idx).map Jitter.ts

/-- Invariant: `previous` never exceeds the next reading, the written
timestamps are sorted, and all of them are at most `previous`. -/
def sortInv (f : Nat → Int) (s : LoopState) : Prop :=
  s.previous ≤ f s.calls ∧
  List.Sorted (· ≤ ·) (tsWritten s) ∧ ∀ x ∈ tsWritten s, x ≤ s.previous

/-- `sortInv` is preserved by one loop iteration. -/
theorem sortInv_step (f : Nat → Int) (hf : Monotone f) (I : Int) (s s' : LoopState)
    (hs : sortInv f s) (heq : iter I f s = some s') : sortInv f s' := by
  obtain ⟨hprev, hsort, hbound⟩ := hs
  unfold iter at heq
  dsimp only at heq
  split at heq
  · split at heq
    · rename_i hemit hinb
      cases heq
      have hts : tsWritten
          { previous := f (s.calls + 1)
            nextReport := f s.calls + I
            max := i64Min
            idx := s.idx + 1
            jitter := s.jitter.set s.idx
              ⟨f s.calls, if f s.calls - s.previous > s.max then f s.calls - s.previous else s.max⟩
            calls := s.calls + 2 } = tsWritten s ++ [f s.calls] := by
        unfold tsWritten
        dsimp only
        rw [take_set_succ s.jitter s.idx _ hinb]
        simp
      refine ⟨?_, ?_, ?_⟩
      · dsimp only
        exact hf (by omega)
      · rw [hts]
        rw [List.Sorted, List.pairwise_append]
        refine ⟨hsort, by simp, ?_⟩
        intro x hx y hy
        rw [List.mem_singleton] at hy
        subst hy
        exact le_trans (hbound x hx) hprev
      · rw [hts]
        intro x hx
        rcases List.mem_append.mp hx with h | h
        · exact le_trans (le_trans (hbound x h) hprev) (hf (by omega))
        · rw [List.mem_singleton] at h
          subst h
          exact hf (by omega)
    · cases heq
  · cases heq
    have hts : tsWritten
        { s with
          previous := f s.calls
          max := if f s.calls - s.previous > s.max then f s.calls - s.previous else s.max
          calls := s.calls + 1 } = tsWritten s := rfl
    refine ⟨?_, ?_, ?_⟩
    · dsimp only
      exact hf (by omega)
    · rw [hts]; exact hsort
    · rw [hts]
      intro x hx
      exact le_trans (hbound x hx) hprev

/-- C6 (amended): for every non-decreasing time function, the timestamps of
the entries actually written by the loop (the first `idx` entries of the
result vector) are non-decreasing.  The whole-vector statement including the
never-written sentinel entries is refuted by
`sentinel_breaks_sorted_counterexample`. -/
theorem written_timestamps_sorted (args : ProgramArgs) (f : Nat → Int) (fuel : Nat)
    (hf : Monotone f) :
    List.Sorted (· ≤ ·) (((busyLoop args f fuel).state.jitter.take
      (busyLoop args f fuel).state.idx).map Jitter.ts) := by
  have hinit : sortInv f (initialState args f) := by
    refine ⟨hf (by omega), ?_, ?_⟩
    · simp [tsWritten, initialState, List.Sorted]
    · simp [tsWritten, initialState]
  have h := busyLoopGo_inv (args.report_interval_millis * 1000000) (loopDeadline args f) f
    (sortInv f) (fun s s' hs _ heq => sortInv_step f hf _ s s' hs heq)
    fuel (initialState args f) hinit
  exact h.2.1

/-- Witness for C6's theorem on the completed run of `cfg1` under `clock1`. -/
theorem written_timestamps_sorted_witness :
    List.Sorted (· ≤ ·) (((busyLoop cfg1 clock1 5).state.jitter.take
      (busyLoop cfg1 clock1 5).state.idx).map Jitter.ts) :=
  written_timestamps_sorted cfg1 clock1 5 clock1_monotone

/-- C6 as frozen is false: in the completed run of `cfg1` under the
non-decreasing `clock1` the full result sequence reads
`[2000000000, 0]` — the trailing never-written sentinel (timestamp 0) sits
below the written timestamp, so the whole sequence including sentinels is not
non-decreasing. -/
theorem sentinel_breaks_sorted_counterexample :
    Monotone clock1 ∧
    (busyLoop cfg1 clock1 5).state.jitter.map Jitter.ts = [2000000000, 0] ∧
    ¬ List.Sorted (· ≤ ·) ((busyLoop cfg1 clock1 5).state.jitter.map Jitter.ts) :=
  ⟨clock1_monotone, by decide, by decide⟩

end JitterSampler

namespace JitterSampler

/-! ## Claim C7: the recorded worst latency dominates every delta of its window

To talk about "every poll-to-poll delta observed since the previous recorded
window" the loop is run in an instrumented form: `giter` performs exactly the
computation of `iter` (proved by `giter_core`) and additionally logs each
computed `latency = now - previous` into `winDeltas`, and, on emission, moves
the window's log next to the recorded sample into `emitted`. -/

/-- The loop state together with the ghost logs: the deltas computed since the
last emission, and every recorded sample paired with the deltas of its
window. -/
structure GState where
  core : LoopState
  winDeltas : List Int
  emitted : List (Jitter × List Int)

/-- The instrumented iteration: the same computation as `iter`, plus the
ghost logs. -/
def giter (intervalNs : Int) (f : Nat → Int) (g : GState) : Option GState :=
  let s := g.core
  let now := f s.calls
  let latency := now - s.previous
  let max := if latency > s.max then latency else s.max
  if now > s.nextReport then
    if s.idx < s.jitter.length then
      some { core := { previous := f (s.calls + 1)
                       nextReport := now + intervalNs
                       max := i64Min
                       idx := s.idx + 1
                       jitter := s.jitter.set s.idx ⟨now, max⟩
                       calls := s.calls + 2 }
             winDeltas := []
             emitted := g.emitted ++ [(⟨now, max⟩, g.winDeltas ++ [latency])] }
    else none
  else
    some { core := { s with previous := now, max := max, calls := s.calls + 1 }
           winDeltas := g.winDeltas ++ [latency]
           emitted := g.emitted }

/-- The instrumented iteration computes exactly the iteration of the source
loop on the `core` component. -/
theorem giter_core (I : Int) (f : Nat → Int) (g : GState) :
    (giter I f g).map GState.core = iter I f g.core := by
  unfold giter iter
  dsimp only
  split
  · split <;> rfl
  · rfl

/-- The instrumented `while` loop (on panic or fuel exhaustion it returns the
instrumented state reached, mirroring `busyLoopGo`). -/
def gLoopGo (I D : Int) (f : Nat → Int) : Nat → GState → GState
  | 0, g => g
  | fuel + 1, g =>
    if g.core.previous < D then
      match giter I f g with
      | some g' => gLoopGo I D f fuel g'
      | none => g
    else g

/-- The instrumented run simulates the source run. -/
theorem gLoopGo_core (I D : Int) (f : Nat → Int) :
    ∀ fuel g, (gLoopGo I D f fuel g).core = (busyLoopGo I D f fuel g.core).state
  | 0, _ => rfl
  | fuel + 1, g => by
    unfold gLoopGo busyLoopGo
    by_cases h : g.core.previous < D
    · rw [if_pos h, if_pos h]
      have hsim := giter_core I f g
      cases hgeq : giter I f g with
      | some g' =>
        rw [hgeq] at hsim
        simp only [Option.map_some'] at hsim
        rw [← hsim]
        exact gLoopGo_core I D f fuel g'
      | none =>
        rw [hgeq] at hsim
        simp only [Option.map_none'] at hsim
        rw [← hsim]
        rfl
    · rw [if_neg h, if_neg h]
      rfl

/-- Anything at most the old running maximum is at most the updated one. -/
theorem le_runningMax (a m x : Int) (h : x ≤ m) : x ≤ if a > m then a else m := by
  split
  · linarith
  · exact h

/-- The new delta is at most the updated running maximum. -/
theorem self_le_runningMax (a m : Int) : a ≤ if a > m then a else m := by
  split
  · exact le_refl a
  · rename_i hc
    exact le_of_not_lt hc

/-- Ghost invariant: every delta logged in the current window is at most the
running maximum, and every recorded sample's latency dominates every delta of
its window. -/
def deltaInv (g : GState) : Prop :=
  (∀ d ∈ g.winDeltas, d ≤ g.core.max) ∧
  (∀ p ∈ g.emitted, ∀ d ∈ p.2, d ≤ p.1.latency)

/-- `deltaInv` is preserved by the instrumented iteration. -/
theorem deltaInv_step (I : Int) (f : Nat → Int) (g g' : GState)
    (hg : deltaInv g) (heq : giter I f g = some g') : deltaInv g' := by
  obtain ⟨hwin, hemit⟩ := hg
  unfold giter at heq
  dsimp only at heq
  split at heq
  · split at heq
    · cases heq
      constructor
      · intro d hd
        simp at hd
      · intro p hp
        dsimp only at hp
        rcases List.mem_append.mp hp with h | h
        · exact hemit p h
        · rw [List.mem_singleton] at h
          subst h
          intro d hd
          dsimp only at hd ⊢
          rcases List.mem_append.mp hd with h2 | h2
          · exact le_runningMax _ _ _ (hwin d h2)
          · rw [List.mem_singleton] at h2
            subst h2
            exact self_le_runningMax _ _
    · cases heq
  · cases heq
    constructor
    · intro d hd
      dsimp only at hd ⊢
      rcases List.mem_append.mp hd with h | h
      · exact le_runningMax _ _ _ (hwin d h)
      · rw [List.mem_singleton] at h
        subst h
        exact self_le_runningMax _ _
    · exact hemit

/-- `deltaInv` holds at the end of the instrumented run. -/
theorem gLoopGo_deltaInv (I D : Int) (f : Nat → Int) :
    ∀ fuel g, deltaInv g → deltaInv (gLoopGo I D f fuel g)
  | 0, _, hg => hg
  | fuel + 1, g, hg => by
    unfold gLoopGo
    by_cases h : g.core.previous < D
    · rw [if_pos h]
      cases hgeq : giter I f g with
      | some g' => exact gLoopGo_deltaInv I D f fuel g' (deltaInv_step I f g g' hg hgeq)
      | none => exact hg
    · rw [if_neg h]
      exact hg

/-- The instrumented run of `busy_loop`. -/
def gBusyLoop (args : ProgramArgs) (f : Nat → Int) (fuel : Nat) : GState :=
  gLoopGo (args.report_interval_millis * 1000000) (loopDeadline args f) f fuel
    ⟨initialState args f, [], []⟩

/-- C7: the instrumented run performs exactly the run of `busy_loop` (its
`core` is the state the source run reaches), and every recorded sample's
`worst_latency` is ≥ every poll-to-poll delta `now - previous` that the loop
computed since the previous recorded window (the deltas logged next to the
sample, including the delta of the emitting iteration itself). -/
theorem worst_latency_dominates_deltas (args : ProgramArgs) (f : Nat → Int) (fuel : Nat) :
    (gBusyLoop args f fuel).core = (busyLoop args f fuel).state ∧
    ∀ p ∈ (gBusyLoop args f fuel).emitted, ∀ d ∈ p.2, d ≤ p.1.latency := by
  constructor
  · exact gLoopGo_core _ _ f fuel ⟨initialState args f, [], []⟩
  · refine (gLoopGo_deltaInv _ _ f fuel ⟨initialState args f, [], []⟩ ?_).2
    exact ⟨by intro d hd; simp at hd, by intro p hp; simp at hp⟩

end JitterSampler

namespace JitterSampler

/-! ## Claim C5: clock-source resolution failure modes -/

/-- C5 (amended): `configure_clock` fails (panics with "Unrecognized clock
type") for every unrecognized time-source identifier; but when the
hardware-counter source (`rdtsc`) is selected without a frequency value it
does **not** fail with a MissingFrequency error — it proceeds, leaving the
zero-initialised `TSC_FREQUENCY` in place. -/
theorem configure_clock_failure_modes (ts : String) (freqArg : Option Rat) (r c : Int)
    (h1 : ts ≠ "clock_realtime") (h2 : ts ≠ "clock_monotonic") (h3 : ts ≠ "rdtsc") :
    configureClock (some ts) freqArg r c = .error "Unrecognized clock type" ∧
    configureClock (some "rdtsc") none r c = .ok (.rdtsc, ⟨0, r - c⟩) := by
  constructor
  · unfold configureClock
    dsimp only
    rw [if_neg h1, if_neg h2, if_neg h3]
  · rfl

/-- Witness for C5's theorem at the unrecognized identifier `"tsc"`. -/
theorem configure_clock_failure_modes_witness :
    ("tsc" : String) ≠ "clock_realtime" ∧
    configureClock (some "tsc") none 0 0 = .error "Unrecognized clock type" ∧
    configureClock (some "rdtsc") none 0 0 = .ok (.rdtsc, ⟨0, 0⟩) :=
  ⟨by decide,
    (configure_clock_failure_modes "tsc" none 0 0 (by decide) (by decide) (by decide)).1,
    (configure_clock_failure_modes "tsc" none 0 0 (by decide) (by decide) (by decide)).2⟩

/-- C5 as frozen is false: selecting `rdtsc` with no `tsc_frequency` argument
does not produce a MissingFrequency error — `configure_clock` returns
normally, with the frequency still at its zero-initialised value. -/
theorem missing_frequency_counterexample :
    configureClock (some "rdtsc") none 5 3 = .ok (.rdtsc, ⟨0, 2⟩) := rfl

/-! ## Claim C4: hardware-counter calibration -/

/-- Modelled from the spec: the spec's calibration procedure for the
hardware-counter source — "repeatedly sampling `(counter-derived time) -
wall-clock()` over a large number of iterations (≥10^5) and retaining the
minimum observed difference".  This computation appears nowhere in the
repository's code; it is stated here only to compare the spec's description
against what `configure_clock` actually computes. -/
def specCalibrationOffset (counterTime wallClock : Nat → Int) (iters : Nat) : Int :=
  (List.range iters).foldl (fun m i => min m (counterTime i - wallClock i))
    (counterTime 0 - wallClock 0)

/-- C4 (amended): when the hardware-counter source is selected, the
calibration offset written before any pipeline starts is computed from a
single sample — one `clock_realtime()` reading minus one counter-derived
reading — with no iteration and no minimum. -/
theorem calibration_offset_single_sample (freqArg : Option Rat) (r c : Int) :
    configureClock (some "rdtsc") freqArg r c = .ok (.rdtsc, ⟨freqArg.getD 0, r - c⟩) := rfl

/-- A scripted counter-derived time stream: 7, then 3, then 10 forever. -/
def calibCounter : Nat → Int := fun n => if n = 0 then 7 else if n = 1 then 3 else 10

/-- A scripted wall-clock stream: constantly 0. -/
def calibWall : Nat → Int := fun _ => 0

/-- For these streams the spec's minimum stabilises at 3 from two iterations
on (so in particular at 10^5 iterations). -/
theorem specCalibrationOffset_calib_streams :
    ∀ n, specCalibrationOffset calibCounter calibWall (n + 2) = 3 := by
  intro n
  induction n with
  | zero => decide
  | succ m ih =>
    unfold specCalibrationOffset at ih ⊢
    rw [show m + 1 + 2 = (m + 2) + 1 from rfl, List.range_succ, List.foldl_append, ih]
    simp [calibCounter, calibWall]

/-- C4 as frozen is false: with the scripted streams `calibCounter` and
`calibWall`, `configure_clock` writes the single-sample offset
`wall-clock() - time_func() = 0 - 7 = -7`, while the spec's procedure — the
minimum of `(counter-derived time) - wall-clock()` over 10^5 iterations —
yields 3 (and under the opposite sign convention it would yield -10); the code
does not perform the spec's computation. -/
theorem calibration_single_sample_counterexample :
    configureClock (some "rdtsc") (some 1) (calibWall 0) (calibCounter 0) =
      .ok (.rdtsc, ⟨1, -7⟩) ∧
    specCalibrationOffset calibCounter calibWall 100000 = 3 ∧
    ((-7 : Int) ≠ 3) := by
  refine ⟨rfl, ?_, by decide⟩
  have h := specCalibrationOffset_calib_streams 99998
  rwa [show (99998 : Nat) + 2 = 100000 from rfl] at h

end JitterSampler

namespace JitterSampler

/-! ## Claims C9, C10: the core-list grammar

Spec-side the grammar of §6 is formalised: a token is the decimal rendering of
a single non-negative integer (fitting `u32`, as `u32::from_str` demands), or
`A-B` for two such integers; a core list is a nonempty comma-separated
sequence of tokens. -/

/-- The decimal rendering of a natural number (most significant digit first),
via Mathlib's `Nat.digits`. -/
def natChars (a : Nat) : List Char :=
  if a = 0 then ['0'] else ((Nat.digits 10 a).map Nat.digitChar).reverse

/-- Modelled from the spec: a comma-separated rendering of a token list
("comma-separated tokens", §6 core-list grammar). -/
def commaJoin : List (List Char) → List Char
  | [] => []
  | [t] => t
  | t :: rest => t ++ ',' :: commaJoin rest

/-- Modelled from the spec: the §6 core-list token grammar together with the
expansion the spec prescribes — a single non-negative integer `a` denotes
`[a]`, and an inclusive range `A-B` with `A ≤ B` denotes every integer in
`[A, B]` (here `List.range' a (b + 1 - a) = [a, a+1, ..., b]`).  The bounds
are those under which `u32::from_str` accepts the numbers and the source's
`u32` computation `end + 1` does not overflow: a single value may be any
`u32`, while a range's upper bound must satisfy `b + 1 < 2^32` (at
`b = 4294967295` the source's `end + 1` overflows — debug panic, release wrap
to an empty range — and no expansion of `[a, b]` is produced). -/
inductive TokenSpec : List Char → List Nat → Prop where
  | single (a : Nat) (h : a < 4294967296) : TokenSpec (natChars a) [a]
  | range (a b : Nat) (hab : a ≤ b) (hb : b + 1 < 4294967296) :
      TokenSpec (natChars a ++ '-' :: natChars b) (List.range' a (b + 1 - a))

theorem digitChar_isDigit (d : Nat) (h : d < 10) : (Nat.digitChar d).isDigit = true := by
  interval_cases d <;> decide

theorem digitChar_toNat (d : Nat) (h : d < 10) : (Nat.digitChar d).toNat - 48 = d := by
  interval_cases d <;> decide

theorem natChars_digit (a : Nat) : ∀ c ∈ natChars a, c.isDigit = true := by
  intro c hc
  unfold natChars at hc
  by_cases ha : a = 0
  · rw [if_pos ha] at hc
    rw [List.mem_singleton] at hc
    subst hc
    decide
  · rw [if_neg ha] at hc
    rw [List.mem_reverse, List.mem_map] at hc
    obtain ⟨d, hd, rfl⟩ := hc
    exact digitChar_isDigit d (Nat.digits_lt_base (by norm_num) hd)

theorem isDigit_ne_dash (c : Char) (h : c.isDigit = true) : c ≠ '-' := by
  intro hc
  subst hc
  exact absurd h (by decide)

theorem isDigit_ne_comma (c : Char) (h : c.isDigit = true) : c ≠ ',' := by
  intro hc
  subst hc
  exact absurd h (by decide)

theorem isDigit_ne_plus (c : Char) (h : c.isDigit = true) : c ≠ '+' := by
  intro hc
  subst hc
  exact absurd h (by decide)

theorem isDigit_not_ws (c : Char) (h : c.isDigit = true) : c.isWhitespace = false := by
  by_contra hws
  rw [Bool.not_eq_false] at hws
  have hd : ((c = ' ' ∨ c = '\t') ∨ c = '\x0d') ∨ c = '\n' := by
    simpa [Char.isWhitespace, Bool.or_eq_true, decide_eq_true_eq, or_assoc] using hws
  rw [or_assoc, or_assoc] at hd
  rcases hd with rfl | rfl | rfl | rfl <;> exact absurd h (by decide)

theorem dropWhile_ws_eq_self (l : List Char) (h : ∀ c ∈ l, c.isWhitespace = false) :
    l.dropWhile Char.isWhitespace = l := by
  cases l with
  | nil => rfl
  | cons c cs => simp [List.dropWhile, h c (by simp)]

theorem trimChars_eq_self (l : List Char) (h : ∀ c ∈ l, c.isWhitespace = false) :
    trimChars l = l := by
  unfold trimChars
  rw [dropWhile_ws_eq_self l h]
  rw [dropWhile_ws_eq_self l.reverse (by intro c hc; exact h c (List.mem_reverse.mp hc))]
  exact List.reverse_reverse l

theorem splitOnChar_not_mem (sep : Char) (l : List Char) (h : sep ∉ l) :
    splitOnChar sep l = [l] := by
  induction l with
  | nil => rfl
  | cons c cs ih =>
    unfold splitOnChar
    rw [if_neg (by intro hc; exact h (hc ▸ List.mem_cons_self c cs))]
    rw [ih (by intro hm; exact h (List.mem_cons_of_mem c hm))]

theorem splitOnChar_cons (sep c : Char) (cs : List Char) :
    splitOnChar sep (c :: cs) =
      if c = sep then [] :: splitOnChar sep cs
      else
        match splitOnChar sep cs with
        | [] => [[c]]
        | t :: ts => (c :: t) :: ts := rfl

theorem splitOnChar_append (sep : Char) (t rest : List Char) (h : sep ∉ t) :
    splitOnChar sep (t ++ sep :: rest) = t :: splitOnChar sep rest := by
  induction t with
  | nil =>
    simp only [List.nil_append]
    rw [splitOnChar_cons, if_pos rfl]
  | cons c cs ih =>
    simp only [List.cons_append]
    rw [splitOnChar_cons, if_neg (by intro hc; exact h (hc ▸ List.mem_cons_self c cs))]
    rw [ih (by intro hm; exact h (List.mem_cons_of_mem c hm))]

theorem foldl_digits_le (ds : List Nat) : ∀ acc : Nat,
    acc ≤ ds.foldl (fun a d => a * 10 + d) acc := by
  induction ds with
  | nil => intro acc; exact le_refl acc
  | cons d ds ih => intro acc; exact le_trans (by omega) (ih (acc * 10 + d))

theorem parseU32Go_digits (ds : List Nat) : ∀ acc : Nat, (∀ d ∈ ds, d < 10) →
    ds.foldl (fun a d => a * 10 + d) acc < 4294967296 →
    parseU32Go (ds.map Nat.digitChar) acc =
      some (ds.foldl (fun a d => a * 10 + d) acc) := by
  induction ds with
  | nil => intro acc _ _; rfl
  | cons d ds ih =>
    intro acc hds hbound
    have hd : d < 10 := hds d (by simp)
    simp only [List.map_cons]
    unfold parseU32Go
    rw [digitChar_isDigit d hd]
    simp only [if_true]
    rw [digitChar_toNat d hd]
    have hfold : (d :: ds).foldl (fun a d => a * 10 + d) acc =
        ds.foldl (fun a d => a * 10 + d) (acc * 10 + d) := rfl
    rw [hfold] at hbound
    have hle : acc * 10 + d ≤ ds.foldl (fun a d => a * 10 + d) (acc * 10 + d) :=
      foldl_digits_le ds (acc * 10 + d)
    rw [if_pos (by omega)]
    rw [ih (acc * 10 + d) (by intro x hx; exact hds x (by simp [hx])) (by omega)]
    rw [hfold]

theorem foldr_eq_ofDigits (l : List Nat) :
    l.foldr (fun d x => x * 10 + d) 0 = Nat.ofDigits 10 l := by
  induction l with
  | nil => rfl
  | cons d ds ih =>
    rw [List.foldr_cons, ih, Nat.ofDigits_cons]
    ring

theorem foldl_reverse_digits (a : Nat) :
    (Nat.digits 10 a).reverse.foldl (fun x d => x * 10 + d) 0 = a := by
  rw [List.foldl_reverse]
  rw [show (fun x y => (fun x d => x * 10 + d) y x) = fun d x => x * 10 + d from rfl]
  rw [foldr_eq_ofDigits]
  exact Nat.ofDigits_digits 10 a

theorem natChars_ne_nil (a : Nat) : natChars a ≠ [] := by
  unfold natChars
  by_cases ha : a = 0
  · rw [if_pos ha]; simp
  · rw [if_neg ha]
    simp only [ne_eq, List.reverse_eq_nil_iff, List.map_eq_nil_iff]
    exact Nat.digits_ne_nil_iff_ne_zero.mpr ha

theorem parseU32_eq_go (l : List Char) (hne : l ≠ []) (hhead : l.head? ≠ some '+') :
    parseU32 l = parseU32Go l 0 := by
  unfold parseU32
  dsimp only
  rw [if_neg hhead]
  cases l with
  | nil => exact absurd rfl hne
  | cons c cs => rfl

theorem parseU32_natChars (a : Nat) (h : a < 4294967296) : parseU32 (natChars a) = some a := by
  by_cases ha : a = 0
  · subst ha; decide
  · have hhead : (natChars a).head? ≠ some '+' := by
      cases hl : natChars a with
      | nil => simp
      | cons c cs =>
        simp only [List.head?, ne_eq, Option.some.injEq]
        intro hc
        subst hc
        have hmem : '+' ∈ natChars a := by rw [hl]; exact List.mem_cons_self _ _
        exact isDigit_ne_plus '+' (natChars_digit a '+' hmem) rfl
    rw [parseU32_eq_go (natChars a) (natChars_ne_nil a) hhead]
    have hform : natChars a = (Nat.digits 10 a).reverse.map Nat.digitChar := by
      unfold natChars
      rw [if_neg ha, List.map_reverse]
    rw [hform]
    have hlt : ∀ d ∈ (Nat.digits 10 a).reverse, d < 10 := by
      intro d hd
      exact Nat.digits_lt_base (by norm_num) (List.mem_reverse.mp hd)
    have hval := foldl_reverse_digits a
    rw [parseU32Go_digits (Nat.digits 10 a).reverse 0 hlt (by rw [hval]; exact h), hval]

theorem natChars_not_contains_dash (a : Nat) : (natChars a).contains '-' = false := by
  have hnm : '-' ∉ natChars a := by
    intro hm
    exact isDigit_ne_dash '-' (natChars_digit a '-' hm) rfl
  simpa using hnm

/-- A well-formed token parses to exactly the expansion the grammar
prescribes. -/
theorem parseCpuToken_spec (t : List Char) (e : List Nat) (h : TokenSpec t e) :
    parseCpuToken t = some e := by
  cases h with
  | single a ha =>
    unfold parseCpuToken
    rw [if_neg (by rw [natChars_not_contains_dash a]; exact Bool.false_ne_true)]
    rw [parseU32_natChars a ha]
    rfl
  | range a b hab hb =>
    unfold parseCpuToken
    have hmem : '-' ∈ natChars a ++ '-' :: natChars b := by
      rw [List.mem_append]
      exact Or.inr (List.mem_cons_self _ _)
    rw [if_pos (by simp [hmem])]
    have hna : '-' ∉ natChars a := by
      intro hm
      exact isDigit_ne_dash '-' (natChars_digit a '-' hm) rfl
    have hnb : '-' ∉ natChars b := by
      intro hm
      exact isDigit_ne_dash '-' (natChars_digit b '-' hm) rfl
    rw [splitOnChar_append '-' (natChars a) (natChars b) hna,
      splitOnChar_not_mem '-' (natChars b) hnb]
    simp only [List.getD]
    rw [show ([natChars a, natChars b].get? 0).getD [] = natChars a from rfl,
      show ([natChars a, natChars b].get? 1).getD [] = natChars b from rfl]
    rw [parseU32_natChars a (by omega), parseU32_natChars b (by omega)]
    dsimp only
    rw [Nat.mod_eq_of_lt hb]

/-- The token loop maps well-formed tokens to the concatenation of their
expansions, in input order. -/
theorem parseCpuTokens_spec (tokens : List (List Char)) (expansions : List (List Nat))
    (h : List.Forall₂ TokenSpec tokens expansions) :
    parseCpuTokens tokens = some expansions.flatten := by
  induction h with
  | nil => rfl
  | cons ht hrest ih =>
    unfold parseCpuTokens
    rw [parseCpuToken_spec _ _ ht, ih]
    rfl

theorem tokenSpec_char_shape (t : List Char) (e : List Nat) (h : TokenSpec t e) :
    ∀ c ∈ t, c.isDigit = true ∨ c = '-' := by
  cases h with
  | single a ha => intro c hc; exact Or.inl (natChars_digit a c hc)
  | range a b hab hb =>
    intro c hc
    rw [List.mem_append, List.mem_cons] at hc
    rcases hc with hc | hc | hc
    · exact Or.inl (natChars_digit a c hc)
    · exact Or.inr hc
    · exact Or.inl (natChars_digit b c hc)

theorem commaJoin_not_ws (tokens : List (List Char))
    (h : ∀ t ∈ tokens, ∀ c ∈ t, c.isWhitespace = false) :
    ∀ c ∈ commaJoin tokens, c.isWhitespace = false := by
  induction tokens with
  | nil => intro c hc; simp [commaJoin] at hc
  | cons t rest ih =>
    intro c hc
    cases rest with
    | nil => exact h t (by simp) c hc
    | cons t2 rest2 =>
      rw [show commaJoin (t :: t2 :: rest2) = t ++ ',' :: commaJoin (t2 :: rest2) from rfl,
        List.mem_append, List.mem_cons] at hc
      rcases hc with hc | hc | hc
      · exact h t (by simp) c hc
      · subst hc; decide
      · exact ih (by intro u hu d hd; exact h u (List.mem_cons_of_mem t hu) d hd) c hc

theorem splitOnChar_commaJoin (tokens : List (List Char)) (hne : tokens ≠ [])
    (h : ∀ t ∈ tokens, ',' ∉ t) :
    splitOnChar ',' (commaJoin tokens) = tokens := by
  induction tokens with
  | nil => exact absurd rfl hne
  | cons t rest ih =>
    cases rest with
    | nil =>
      rw [show commaJoin [t] = t from rfl]
      rw [splitOnChar_not_mem ',' t (h t (by simp))]
    | cons t2 rest2 =>
      rw [show commaJoin (t :: t2 :: rest2) = t ++ ',' :: commaJoin (t2 :: rest2) from rfl]
      rw [splitOnChar_append ',' t (commaJoin (t2 :: rest2)) (h t (by simp))]
      rw [ih (by simp) (by intro u hu; exact h u (List.mem_cons_of_mem t hu))]

/-- C9: the parser maps a comma-separated sequence of well-formed tokens —
each a single non-negative integer or an inclusive range `A-B` with `A ≤ B` —
to the concatenation of the token expansions in input order, with no
deduplication or sorting; in particular `"1,4-6,8-12,15"` parses to
`[1,4,5,6,8,9,10,11,12,15]` and `"0"` parses to `[0]`. -/
theorem parse_cpu_list_grammar :
    (∀ (tokens : List (List Char)) (expansions : List (List Nat)),
      tokens ≠ [] →
      List.Forall₂ TokenSpec tokens expansions →
      parseCpuList (commaJoin tokens) = some expansions.flatten) ∧
    parseCpuList "1,4-6,8-12,15".toList = some [1, 4, 5, 6, 8, 9, 10, 11, 12, 15] ∧
    parseCpuList "0".toList = some [0] := by
  refine ⟨?_, by decide, by decide⟩
  intro tokens expansions hne hspec
  have hshape : ∀ t ∈ tokens, ∀ c ∈ t, c.isDigit = true ∨ c = '-' := by
    intro t ht
    obtain ⟨e, he⟩ : ∃ e, TokenSpec t e := by
      clear hne
      induction hspec with
      | nil => simp at ht
      | cons h1 h2 ih =>
        rcases List.mem_cons.mp ht with rfl | hm
        · exact ⟨_, h1⟩
        · exact ih hm
    exact tokenSpec_char_shape t e he
  have hws : ∀ c ∈ commaJoin tokens, c.isWhitespace = false := by
    apply commaJoin_not_ws
    intro t ht c hc
    rcases hshape t ht c hc with hd | rfl
    · exact isDigit_not_ws c hd
    · decide
  have hnc : ∀ t ∈ tokens, ',' ∉ t := by
    intro t ht hm
    rcases hshape t ht ',' hm with hd | hd
    · exact isDigit_ne_comma ',' hd rfl
    · exact absurd hd (by decide)
  unfold parseCpuList
  rw [trimChars_eq_self _ hws, splitOnChar_commaJoin tokens hne hnc]
  exact parseCpuTokens_spec tokens expansions hspec

/-- Witness for C9's theorem: the single token `"0"` parses to `[0]`. -/
theorem parse_cpu_list_grammar_witness :
    parseCpuList (commaJoin [natChars 0]) = some ([[0]] : List (List Nat)).flatten :=
  parse_cpu_list_grammar.1 [natChars 0] [[0]] (by simp)
    (List.Forall₂.cons (TokenSpec.single 0 (by norm_num)) List.Forall₂.nil)

/-- C10: a range token `A-B` whose bounds both parse but with `A > B`
(violating the documented `A ≤ B` grammar) does not make the parser fail:
`begin..end + 1` is the empty Rust range, so the token contributes zero CPUs
and parsing continues with the remaining tokens unchanged. -/
theorem inverted_range_empty (a b : Nat) (rest : List (List Char))
    (hba : b < a) (ha : a < 4294967296) :
    parseCpuToken (natChars a ++ '-' :: natChars b) = some [] ∧
    parseCpuTokens ((natChars a ++ '-' :: natChars b) :: rest) = parseCpuTokens rest := by
  have htok : parseCpuToken (natChars a ++ '-' :: natChars b) = some [] := by
    unfold parseCpuToken
    have hmem : '-' ∈ natChars a ++ '-' :: natChars b := by
      rw [List.mem_append]
      exact Or.inr (List.mem_cons_self _ _)
    rw [if_pos (by simp [hmem])]
    have hna : '-' ∉ natChars a := by
      intro hm
      exact isDigit_ne_dash '-' (natChars_digit a '-' hm) rfl
    have hnb : '-' ∉ natChars b := by
      intro hm
      exact isDigit_ne_dash '-' (natChars_digit b '-' hm) rfl
    rw [splitOnChar_append '-' (natChars a) (natChars b) hna,
      splitOnChar_not_mem '-' (natChars b) hnb]
    simp only [List.getD]
    rw [show ([natChars a, natChars b].get? 0).getD [] = natChars a from rfl,
      show ([natChars a, natChars b].get? 1).getD [] = natChars b from rfl]
    rw [parseU32_natChars a ha, parseU32_natChars b (lt_trans hba ha)]
    dsimp only
    rw [show (b + 1) % 4294967296 - a = 0 from by omega]
    rfl
  refine ⟨htok, ?_⟩
  have hstep : parseCpuTokens ((natChars a ++ '-' :: natChars b) :: rest) =
      match parseCpuToken (natChars a ++ '-' :: natChars b), parseCpuTokens rest with
      | some xs, some ys => some (xs ++ ys)
      | _, _ => none := rfl
  rw [hstep, htok]
  cases hres : parseCpuTokens rest with
  | none => rfl
  | some ys => rfl

/-- Witness for C10's theorem: `"5-3,7"`-style input — the inverted range
`5-3` yields no CPUs and `7` still parses. -/
theorem inverted_range_empty_witness :
    ((3 : Nat) < 5 ∧ (5 : Nat) < 4294967296) ∧
    parseCpuToken (natChars 5 ++ '-' :: natChars 3) = some [] ∧
    parseCpuTokens ((natChars 5 ++ '-' :: natChars 3) :: [['7']]) =
      parseCpuTokens [['7']] :=
  ⟨⟨by decide, by decide⟩,
    (inverted_range_empty 5 3 [['7']] (by decide) (by decide)).1,
    (inverted_range_empty 5 3 [['7']] (by decide) (by decide)).2⟩

end JitterSampler
